import Mathlib

/-!
Verification of the DroneID receiver (B210/Windows port).

Shallow embedding of the parts of the repository that the claims touch:

* the CRC-16 frame check used by `droneid_packet.DroneIDPacket` (the module
  itself is not among the available sources; it is modelled from the spec:
  polynomial 0x11021, initial value 0x3692, reflected input and output, and
  from the property tests in `tests/test_decoder_parser.py`);
* the fixed-layout telemetry field decoding with its GPS and altitude
  scaling (modelled from the spec field table, same missing module);
* the rate de-matcher `rm_turbo_rx` (modelled from the spec: 32-column
  matrix, column-major fill, trailing dummy positions, row-major readout);
* the `FrequencyScanner` state machine from `src/frequency_scanner.py`;
* the brute-force QPSK phase loop of `run_demod` and the worker feedback
  step of `process_samples` from `src/droneid_receiver_live.py`;
* the candidate emission loop and the burst slicing arithmetic of
  `find_packet_candidate_time` from `src/packetizer.py` (the offset
  estimator `helpers.estimate_offset` is not among the sources and is
  treated as an oracle input, as the claims condition on its result).
-/

/-! ## CRC-16 (modelled from the spec) -/

/-- Modelled from the spec: CRC polynomial constant of `droneid_packet`
(the module is not among the available sources). -/
def CRC_POLY : ℕ := 0x11021

/-- Modelled from the spec: CRC initial value constant of `droneid_packet`. -/
def CRC_INIT : ℕ := 0x3692

/-- Bit-reversed form of the degree-16 part 0x1021 of `CRC_POLY`, used by the
reflected (least-significant-bit-first) CRC algorithm that
`crcmod.mkCrcFun(CRC_POLY, initCrc=CRC_INIT, rev=True)` implements. -/
def CRC_POLY_REV : ℕ := 0x8408

/-- Full frame length constant of `droneid_packet`: 89 payload bytes plus a
2-byte little-endian CRC. -/
def DRONEID_MAX_LEN : ℕ := 91

/-- Modelled from the spec: one bit step of the reflected CRC-16. The register
is shifted right by one and conditionally folded with the reversed
polynomial, depending on the outgoing low bit. -/
def crcRound (c : ℕ) : ℕ :=
  if c % 2 = 1 then (c >>> 1) ^^^ CRC_POLY_REV else c >>> 1

/-- Modelled from the spec: one byte step of the reflected CRC-16: the byte is
xored into the low bits of the register, then eight bit steps run. -/
def crcByte (c b : ℕ) : ℕ := crcRound^[8] (c ^^^ b)

/-- Modelled from the spec: the CRC-16 over a byte sequence with polynomial
0x11021 (reflected to 0x8408), initial value 0x3692, reflected input and
output, as produced by `crcmod.mkCrcFun(CRC_POLY, initCrc=CRC_INIT,
rev=True)` in `droneid_packet`. -/
def crc_func (payload : List ℕ) : ℕ := payload.foldl crcByte CRC_INIT

/-- Little-endian decoding of `n` bytes from the front of a byte list. -/
def decLE : ℕ → List ℕ → ℕ
  | 0, _ => 0
  | _ + 1, [] => 0
  | n + 1, b :: bs => b + 256 * decLE n bs

/-- Little-endian unsigned field read of `n` bytes at byte offset `off`. -/
def uLE (l : List ℕ) (off n : ℕ) : ℕ := decLE n (l.drop off)

/-- Little-endian encoding of a value into `n` bytes. -/
def encLE : ℕ → ℕ → List ℕ
  | 0, _ => []
  | n + 1, v => v % 256 :: encLE n (v / 256)

/-- Frame obtained by appending the CRC of an 89-byte payload as two
little-endian bytes, as the CRC round-trip test builds it. -/
def full_packet (p : List ℕ) : List ℕ :=
  p ++ [crc_func p % 256, crc_func p / 256]

/-- Payload with the bit `j` of byte `i` flipped (a single-bit corruption of
the payload, as in the CRC corruption-detection test). -/
def flip_payload_bit (p : List ℕ) (i j : ℕ) : List ℕ :=
  p.set i (p.getD i 0 ^^^ 2 ^ j)

/-! ## Telemetry field decoding (modelled from the spec field table) -/

/-- Two-complement reinterpretation of a `w`-bit unsigned value as signed,
as `struct.unpack` does for the `i` (w = 32) and `h` (w = 16) formats. -/
def toSigned (w : ℕ) (u : ℕ) : ℤ :=
  if u < 2 ^ (w - 1) then (u : ℤ) else (u : ℤ) - 2 ^ w

/-- Unsigned `w`-bit representation of a signed value, as `struct.pack`
produces for in-range signed inputs. -/
def toUnsigned (w : ℕ) (x : ℤ) : ℕ := (x % (2 ^ w : ℤ)).toNat

/-- Integer part of a rational, truncated toward zero, as the Python `int()`
and `round` building blocks use. -/
def ratTrunc (q : ℚ) : ℤ := if 0 ≤ q then ⌊q⌋ else -⌊-q⌋

/-- Round-half-to-even of a rational to an integer, the rounding rule of the
Python builtin `round`. -/
def round_half_even (x : ℚ) : ℤ :=
  if x - ⌊x⌋ < 1 / 2 then ⌊x⌋
  else if 1 / 2 < x - ⌊x⌋ then ⌊x⌋ + 1
  else if ⌊x⌋ % 2 = 0 then ⌊x⌋ else ⌊x⌋ + 1

/-- Python `round(x, 2)`: round-half-to-even at two decimal places. -/
def py_round_2 (x : ℚ) : ℚ := (round_half_even (x * 100) : ℚ) / 100

/-- Typed decode of the 89-byte payload, per the spec field table.
String-typed fields are kept as their raw byte runs. -/
structure TelemetryRecord where
  pkt_len : ℕ
  unk : ℕ
  version : ℕ
  sequence_number : ℕ
  state_info : ℕ
  serial_number : List ℕ
  longitude : ℚ
  latitude : ℚ
  altitude : ℚ
  height : ℚ
  v_north : ℤ
  v_east : ℤ
  v_up : ℤ
  d_1_angle : ℤ
  gps_time : ℕ
  app_lat : ℤ
  app_lon : ℤ
  longitude_home : ℤ
  latitude_home : ℤ
  device_type : ℕ
  uuid_len : ℕ
  uuid : List ℕ

/-- Modelled from the spec: the field decode of `droneid_packet.DroneIDPacket`
over the little-endian layout `<BBBHH16siihhhhhhQiiiiBB20s` (byte offsets
0,1,2,3,5,7,23,27,31,33,35,37,39,41,43,51,55,59,63,67,68,69), with GPS
coordinates scaled by 1/174533 and altitude and height converted from feet
by `round(raw / 3.281, 2)`. -/
def parse_droneid (l : List ℕ) : TelemetryRecord where
  pkt_len := l.getD 0 0
  unk := l.getD 1 0
  version := l.getD 2 0
  sequence_number := uLE l 3 2
  state_info := uLE l 5 2
  serial_number := (l.drop 7).take 16
  longitude := (toSigned 32 (uLE l 23 4) : ℚ) / 174533
  latitude := (toSigned 32 (uLE l 27 4) : ℚ) / 174533
  altitude := py_round_2 ((toSigned 16 (uLE l 31 2) : ℚ) / (3281 / 1000))
  height := py_round_2 ((toSigned 16 (uLE l 33 2) : ℚ) / (3281 / 1000))
  v_north := toSigned 16 (uLE l 35 2)
  v_east := toSigned 16 (uLE l 37 2)
  v_up := toSigned 16 (uLE l 39 2)
  d_1_angle := toSigned 16 (uLE l 41 2)
  gps_time := uLE l 43 8
  app_lat := toSigned 32 (uLE l 51 4)
  app_lon := toSigned 32 (uLE l 55 4)
  longitude_home := toSigned 32 (uLE l 59 4)
  latitude_home := toSigned 32 (uLE l 63 4)
  device_type := l.getD 67 0
  uuid_len := l.getD 68 0
  uuid := (l.drop 69).take 20

/-- Raw (pre-scaling) field values of a frame, as the packing side of the
parsing property tests supplies them. -/
structure DroneIDFields where
  pkt_len : ℕ
  unk : ℕ
  version : ℕ
  sequence_number : ℕ
  state_info : ℕ
  serial_number : List ℕ
  longitude : ℤ
  latitude : ℤ
  altitude : ℤ
  height : ℤ
  v_north : ℤ
  v_east : ℤ
  v_up : ℤ
  d_1_angle : ℤ
  gps_time : ℕ
  app_lat : ℤ
  app_lon : ℤ
  longitude_home : ℤ
  latitude_home : ℤ
  device_type : ℕ
  uuid_len : ℕ
  uuid : List ℕ

/-- NUL-pad (or truncate) a byte run to exactly `n` bytes, as `struct.pack`
does for the `ns` formats. -/
def padBytes (n : ℕ) (l : List ℕ) : List ℕ := (l ++ List.replicate n 0).take n

/-- Byte image of `struct.pack("<BBBHH16siihhhhhhQiiiiBB20s", ...)`: the
89-byte payload built from raw field values. -/
def pack_droneid (f : DroneIDFields) : List ℕ :=
  encLE 1 f.pkt_len ++
  (encLE 1 f.unk ++
  (encLE 1 f.version ++
  (encLE 2 f.sequence_number ++
  (encLE 2 f.state_info ++
  (padBytes 16 f.serial_number ++
  (encLE 4 (toUnsigned 32 f.longitude) ++
  (encLE 4 (toUnsigned 32 f.latitude) ++
  (encLE 2 (toUnsigned 16 f.altitude) ++
  (encLE 2 (toUnsigned 16 f.height) ++
  (encLE 2 (toUnsigned 16 f.v_north) ++
  (encLE 2 (toUnsigned 16 f.v_east) ++
  (encLE 2 (toUnsigned 16 f.v_up) ++
  (encLE 2 (toUnsigned 16 f.d_1_angle) ++
  (encLE 8 f.gps_time ++
  (encLE 4 (toUnsigned 32 f.app_lat) ++
  (encLE 4 (toUnsigned 32 f.app_lon) ++
  (encLE 4 (toUnsigned 32 f.longitude_home) ++
  (encLE 4 (toUnsigned 32 f.latitude_home) ++
  (encLE 1 f.device_type ++
  (encLE 1 f.uuid_len ++
  padBytes 20 f.uuid))))))))))))))))))))

/-! ## Rate de-matching (modelled from the spec) -/

/-- Number of sub-block interleaver rows for a stream of `len` bits: the
matrix has 32 columns and `ceil(len / 32)` rows. -/
def rm_nrows (len : ℕ) : ℕ := (len + 31) / 32

/-- Modelled from the spec: the index permutation of `rm_turbo_rx`. The
received stream, extended by `32 * rows - len` trailing dummy positions,
fills the 32-column matrix column-major; reading it back row-major visits
stream position `(k % 32) * rows + k / 32` at readout step `k`, and the
dummy positions (at or beyond `len`) are stripped. -/
def rm_perm (len : ℕ) : List ℕ :=
  (List.range (32 * rm_nrows len)).filterMap fun k =>
    if (k % 32) * rm_nrows len + k / 32 < len then
      some ((k % 32) * rm_nrows len + k / 32)
    else none

/-- Modelled from the spec: the rate de-matcher `rm_turbo_rx` of `qpsk` (the
module is not among the available sources). Bits are integers; -1 is the
dummy marker used by the tests. -/
def rm_turbo_rx (bits : List ℤ) : List ℤ :=
  (rm_perm bits.length).map fun t => bits.getD t (-1)

/-! ## FrequencyScanner (src/frequency_scanner.py) -/

/-- State of the frequency scanner (`ScanState` in `frequency_scanner.py`). -/
inductive ScanState where
  | SCANNING
  | LOCKED
deriving DecidableEq

/-- The mutable state of `FrequencyScanner`: the combined frequency list and
the four state-machine variables set up by `__init__`. -/
structure FrequencyScanner where
  all_frequencies : List ℚ
  state : ScanState
  locked_frequency : Option ℚ
  current_index : ℕ
  empty_scan_count : ℕ
deriving DecidableEq

/-- The 2.4 GHz scan frequencies (Hz), in the order of `FREQUENCIES_2_4GHZ`. -/
def FREQUENCIES_2_4GHZ : List ℚ :=
  [2459500000, 2444500000, 2429500000, 2474500000, 2434500000, 2414500000]

/-- The 5.8 GHz scan frequencies (Hz), in the order of `FREQUENCIES_5_8GHZ`. -/
def FREQUENCIES_5_8GHZ : List ℚ :=
  [5721500000, 5731500000, 5741500000, 5756500000, 5761500000,
   5771500000, 5786500000, 5801500000, 5816500000, 5831500000]

/-- Number of consecutive empty scans before unlocking. -/
def UNLOCK_THRESHOLD : ℕ := 10

/-- Scanner state after `__init__`: scanning, nothing locked, cursor at the
first channel, and the channel list chosen by `band_2_4_only`. -/
def FrequencyScanner.init (band_2_4_only : Bool) : FrequencyScanner where
  all_frequencies :=
    if band_2_4_only then FREQUENCIES_2_4GHZ
    else FREQUENCIES_2_4GHZ ++ FREQUENCIES_5_8GHZ
  state := .SCANNING
  locked_frequency := none
  current_index := 0
  empty_scan_count := 0

/-- The method `lock_frequency`: any state to LOCKED, locked frequency set,
empty-scan counter reset. -/
def FrequencyScanner.lock_frequency (s : FrequencyScanner) (f : ℚ) :
    FrequencyScanner :=
  { s with state := .LOCKED, locked_frequency := some f, empty_scan_count := 0 }

/-- The method `unlock_frequency`: back to SCANNING, locked frequency
cleared, empty-scan counter reset. -/
def FrequencyScanner.unlock_frequency (s : FrequencyScanner) :
    FrequencyScanner :=
  { s with state := .SCANNING, locked_frequency := none, empty_scan_count := 0 }

/-- The method `record_detection`: while LOCKED, a detection resets the
empty-scan counter and a non-detection increments it, unlocking once it
reaches `UNLOCK_THRESHOLD`; while SCANNING it does nothing. -/
def FrequencyScanner.record_detection (s : FrequencyScanner) (detected : Bool) :
    FrequencyScanner :=
  if s.state = .LOCKED then
    if detected then { s with empty_scan_count := 0 }
    else
      let s₁ := { s with empty_scan_count := s.empty_scan_count + 1 }
      if UNLOCK_THRESHOLD ≤ s₁.empty_scan_count then s₁.unlock_frequency else s₁
  else s

/-- The method `get_next_frequency`: when LOCKED with a locked frequency it
returns that frequency and leaves the cursor alone; otherwise it returns the
channel at the cursor and advances the cursor circularly. -/
def FrequencyScanner.get_next_frequency (s : FrequencyScanner) :
    ℚ × FrequencyScanner :=
  if s.state = .LOCKED ∧ s.locked_frequency ≠ none then
    (s.locked_frequency.getD 0, s)
  else
    (s.all_frequencies.getD s.current_index 0,
     { s with current_index :=
        (s.current_index + 1) % s.all_frequencies.length })

/-- Sequence of `n` consecutive `get_next_frequency` calls: the returned
frequencies in order, and the scanner state afterwards. -/
def get_next_n : ℕ → FrequencyScanner → List ℚ × FrequencyScanner
  | 0, s => ([], s)
  | n + 1, s =>
    let r := s.get_next_frequency
    let rest := get_next_n n r.2
    (r.1 :: rest.1, rest.2)

/-- Shorthand for recording one non-detection. -/
def recordFalse (s : FrequencyScanner) : FrequencyScanner :=
  s.record_detection false

/-! ## The QPSK phase loop of run_demod (src/droneid_receiver_live.py) -/

/-- Observable counters and control state of one run of the phase loop in
`run_demod`: the phases attempted in order, the `found` and
`decoded_successfully` flags, and the two statistics counters it bumps. -/
structure DemodState where
  tried : List ℕ
  found : Bool
  decoded_successfully : Bool
  crc_err : ℕ
  correct_pkt : ℕ

/-- Initial loop state: nothing tried, nothing found, counters untouched. -/
def init_demod : DemodState :=
  { tried := [], found := false, decoded_successfully := false,
    crc_err := 0, correct_pkt := 0 }

/-- Outcome oracle for one phase hypothesis: `none` when the phase fails
structurally (`raw_data_to_symbol_bits`/`magic` raises, no DUML bytes, or
`DroneIDPacket` raises), `some b` when a frame parses with `check_crc`
result `b`. -/
abbrev PhaseAttempt := ℕ → Option Bool

/-- The body of the loop `for phase_corr in range(4)` of `run_demod`
(lines 429-474): a structural failure moves to the next phase; a parsed
frame sets `found` and `decoded_successfully`; a CRC failure bumps
`crc_err` and moves to the next phase; a CRC success bumps `correct_pkt`
and breaks. -/
def phase_loop_aux (attempt : PhaseAttempt) :
    List ℕ → DemodState → DemodState
  | [], st => st
  | p :: ps, st =>
    match attempt p with
    | none => phase_loop_aux attempt ps { st with tried := st.tried ++ [p] }
    | some crcOk =>
      let st₁ := { st with tried := st.tried ++ [p], found := true,
                           decoded_successfully := true }
      if crcOk then { st₁ with correct_pkt := st₁.correct_pkt + 1 }
      else phase_loop_aux attempt ps { st₁ with crc_err := st₁.crc_err + 1 }

/-- One full run of the brute-force phase loop over phases 0,1,2,3. -/
def phase_loop (attempt : PhaseAttempt) : DemodState :=
  phase_loop_aux attempt [0, 1, 2, 3] init_demod

/-- Phases up to and including the first structurally valid one. This is the
set of attempts the claim sentence describes: stop at the first hypothesis
that yields a structurally valid RawFrame, regardless of its CRC. Written
from the claim wording for comparison against the code model. -/
def take_until_first_struct (attempt : PhaseAttempt) : List ℕ → List ℕ
  | [] => []
  | p :: ps =>
    if (attempt p).isSome then [p]
    else p :: take_until_first_struct attempt ps

/-- The phase-attempt list the claim sentence predicts for a burst. -/
def spec_tried_phases (attempt : PhaseAttempt) : List ℕ :=
  take_until_first_struct attempt [0, 1, 2, 3]

/-- Phases up to and including the first one that parses structurally and
passes CRC; all of them when no phase fully succeeds. This is what the code
does. -/
def take_until_crc_valid (attempt : PhaseAttempt) : List ℕ → List ℕ
  | [] => []
  | p :: ps =>
    if attempt p = some true then [p]
    else p :: take_until_crc_valid attempt ps

/-- Oracle refuting the claimed phase-selection rule: phase 0 parses but
fails CRC, phase 1 parses and passes CRC. -/
def c1_attempt : PhaseAttempt := fun p =>
  if p = 0 then some false else if p = 1 then some true else none

/-- Oracle with a single phase that parses structurally but fails CRC. -/
def c9_attempt : PhaseAttempt := fun p =>
  if p = 0 then some false else none

/-! ## run_demod over a packet stream and the worker feedback step -/

/-- Outcome oracle for one detected packet inside `run_demod`: `skip` when
CFO correction, `Packet` construction or symbol extraction fails (the
packet never reaches the phase loop), `decode` with a phase oracle when
the phase loop runs on it. -/
inductive PacketOutcome where
  | skip
  | decode (attempt : PhaseAttempt)

/-- The packet loop of `run_demod`: packets are processed in order, at most
`max_packets_to_process = 5` of them reach the phase loop, and `found`
accumulates every structural decode success. -/
def run_demod_aux : List PacketOutcome → ℕ → Bool → Bool
  | [], _, found => found
  | pk :: pks, processed, found =>
    if 5 ≤ processed then found
    else
      match pk with
      | .skip => run_demod_aux pks processed found
      | .decode a => run_demod_aux pks (processed + 1) (found || (phase_loop a).found)

/-- Return value of `run_demod` on a capture whose packets behave as the
given oracles. -/
def run_demod (pkts : List PacketOutcome) : Bool := run_demod_aux pkts 0 false

/-- Capture with one packet whose phase 0 parses structurally with a
failing CRC. -/
def c9_pkts : List PacketOutcome := [.decode c9_attempt]

/-- The phase oracles of the packets that actually reach the phase loop: the
first five decodable ones. -/
def processed_attempts (pkts : List PacketOutcome) : List PhaseAttempt :=
  (pkts.filterMap fun pk =>
    match pk with
    | .skip => none
    | .decode a => some a).take 5

/-- The per-capture feedback step of `process_samples` (lines 616-631): on a
detection the worker puts the frequency on the detection queue and locks
its scanner to it; otherwise it puts a no-detection marker and records a
non-detection. The first component is the message put on the queue. -/
def worker_step (found : Bool) (frequency : ℚ) (scanner : FrequencyScanner) :
    Option ℚ × FrequencyScanner :=
  (if found then some frequency else none,
   if found then scanner.lock_frequency frequency
   else scanner.record_detection false)

/-! ## Packetizer candidate loop and burst slicing (src/packetizer.py) -/

/-- One width-qualifying burst region, paired with the result the offset
estimation oracle `estimate_offset` reports for it: the estimated offset
and the `found` flag. -/
structure Candidate (α : Type) where
  data : List α
  est : ℚ
  found : Bool

/-- The candidate loop of `find_packet_candidate_time` (lines 66-96): the
running `center_freq_offset` takes the estimate of each visited candidate;
a candidate whose offset is not found is skipped unless `legacy` is set, in
which case it is accepted with the offset forced to 0.0; accepted
candidates are appended (paired here with the offset value current at the
time of the append) and the loop stops once three are collected. -/
def find_packet_loop {α : Type} (legacy : Bool) :
    List (Candidate α) → List (List α × ℚ) → ℚ → List (List α × ℚ) × ℚ
  | [], packets, cfo => (packets, cfo)
  | c :: rest, packets, _ =>
    if c.found then
      let packets₁ := packets ++ [(c.data, c.est)]
      if 3 ≤ packets₁.length then (packets₁, c.est)
      else find_packet_loop legacy rest packets₁ c.est
    else if legacy then
      let packets₁ := packets ++ [(c.data, 0)]
      if 3 ≤ packets₁.length then (packets₁, 0)
      else find_packet_loop legacy rest packets₁ 0
    else find_packet_loop legacy rest packets c.est

/-- The return value of `find_packet_candidate_time`: the list of accepted
candidate sample slices and the last computed offset. -/
def find_packet_candidate_time {α : Type} (legacy : Bool)
    (cands : List (Candidate α)) : List (List α) × ℚ :=
  ((find_packet_loop legacy cands [] 0).1.map Prod.fst,
   (find_packet_loop legacy cands [] 0).2)

/-- Python slice index normalisation for step-1 slices: a negative index
counts from the end of the buffer and is clamped below at 0; a nonnegative
index is clamped above at the length. -/
def pySliceIndex (n : ℕ) (i : ℤ) : ℕ :=
  if i < 0 then (max 0 ((n : ℤ) + i)).toNat else min i.toNat n

/-- Python slice `l[a:b]` for integer bounds with the default step. -/
def pySlice {α : Type} (l : List α) (a b : ℤ) : List α :=
  (l.take (pySliceIndex l.length b)).drop (pySliceIndex l.length a)

/-- The guard interval `start_offset = end_offset = 3 * 15e-6` seconds of
`find_packet_candidate_time`. -/
def start_offset : ℚ := 3 * (15 / 1000000)

/-- Time step of the STFT grid used for burst detection: `nperseg = 64`
samples with no overlap, so `t[1] - t[0] = 64 / Fs`. -/
def stft_dt (Fs : ℚ) : ℚ := 64 / Fs

/-- The burst slice of line 71 of packetizer.py:
`raw_data[int((start - start_offset) * Fs) : int((end + end_offset) * Fs)]`
with `start` and `end` the peak bases converted to seconds. -/
def burst_slice {α : Type} (raw : List α) (Fs dt : ℚ)
    (left_base right_base : ℕ) : List α :=
  pySlice raw (ratTrunc (((left_base : ℚ) * dt - start_offset) * Fs))
              (ratTrunc (((right_base : ℚ) * dt + start_offset) * Fs))

/-- Concrete capture for the negative-slice-index scenario: 2000 samples,
numbered so that slices are recognisable. -/
def c10_raw : List ℕ := List.range 2000

/-- Concrete sample rate for the negative-slice-index scenario: 1 MHz. -/
def c10_Fs : ℚ := 1000000

/-! # Theorems -/

/-! ## CRC-16: linearity, range and nonzero-preservation lemmas -/

theorem two_pow_16_eq : (2 : ℕ) ^ 16 = 65536 := by norm_num

theorem xor_shiftRight_one (a b : ℕ) :
    (a ^^^ b) >>> 1 = (a >>> 1) ^^^ (b >>> 1) := by
  apply Nat.eq_of_testBit_eq
  intro i
  simp [Nat.testBit_shiftRight, Nat.testBit_xor]

theorem xor_mod_two (a b : ℕ) : (a ^^^ b) % 2 = a % 2 ^^^ b % 2 := by
  rw [← Nat.and_one_is_mod a, ← Nat.and_one_is_mod b,
      ← Nat.and_one_is_mod (a ^^^ b)]
  apply Nat.eq_of_testBit_eq
  intro i
  simp only [Nat.testBit_and, Nat.testBit_xor]
  cases Nat.testBit 1 i <;> cases a.testBit i <;> cases b.testBit i <;> rfl

theorem xor_xor_cancel (x y p : ℕ) : (x ^^^ p) ^^^ (y ^^^ p) = x ^^^ y := by
  rw [Nat.xor_assoc, Nat.xor_comm y p, ← Nat.xor_assoc p p y,
      Nat.xor_self, Nat.zero_xor]

theorem crcRound_eq_odd {c : ℕ} (h : c % 2 = 1) :
    crcRound c = (c >>> 1) ^^^ CRC_POLY_REV := by
  unfold crcRound; rw [if_pos h]

theorem crcRound_eq_even {c : ℕ} (h : c % 2 = 0) : crcRound c = c >>> 1 := by
  unfold crcRound; rw [if_neg (by omega)]

theorem crcRound_xor (a b : ℕ) :
    crcRound (a ^^^ b) = crcRound a ^^^ crcRound b := by
  rcases Nat.mod_two_eq_zero_or_one a with ha | ha <;>
    rcases Nat.mod_two_eq_zero_or_one b with hb | hb
  · have hx : (a ^^^ b) % 2 = 0 := by rw [xor_mod_two, ha, hb]; rfl
    rw [crcRound_eq_even hx, crcRound_eq_even ha, crcRound_eq_even hb,
        xor_shiftRight_one]
  · have hx : (a ^^^ b) % 2 = 1 := by rw [xor_mod_two, ha, hb]; rfl
    rw [crcRound_eq_odd hx, crcRound_eq_even ha, crcRound_eq_odd hb,
        xor_shiftRight_one, Nat.xor_assoc]
  · have hx : (a ^^^ b) % 2 = 1 := by rw [xor_mod_two, ha, hb]; rfl
    rw [crcRound_eq_odd hx, crcRound_eq_odd ha, crcRound_eq_even hb,
        xor_shiftRight_one, Nat.xor_assoc, Nat.xor_assoc,
        Nat.xor_comm (b >>> 1) CRC_POLY_REV]
  · have hx : (a ^^^ b) % 2 = 0 := by rw [xor_mod_two, ha, hb]; rfl
    rw [crcRound_eq_even hx, crcRound_eq_odd ha, crcRound_eq_odd hb,
        xor_shiftRight_one, xor_xor_cancel]

theorem crcRound_iterate_xor (n : ℕ) :
    ∀ a b : ℕ, crcRound^[n] (a ^^^ b) = crcRound^[n] a ^^^ crcRound^[n] b := by
  induction n with
  | zero => intro a b; simp
  | succ n ih =>
    intro a b
    rw [Function.iterate_succ_apply, Function.iterate_succ_apply,
        Function.iterate_succ_apply, crcRound_xor, ih]

theorem crcByte_xor (c₁ b₁ c₂ b₂ : ℕ) :
    crcByte (c₁ ^^^ c₂) (b₁ ^^^ b₂) = crcByte c₁ b₁ ^^^ crcByte c₂ b₂ := by
  unfold crcByte
  rw [← crcRound_iterate_xor]
  congr 1
  rw [Nat.xor_assoc, Nat.xor_assoc]
  congr 1
  rw [← Nat.xor_assoc, Nat.xor_comm c₂ b₁, Nat.xor_assoc]

theorem foldl_crcByte_xor :
    ∀ (m₁ m₂ : List ℕ) (s₁ s₂ : ℕ), m₁.length = m₂.length →
      (List.zipWith (· ^^^ ·) m₁ m₂).foldl crcByte (s₁ ^^^ s₂)
        = m₁.foldl crcByte s₁ ^^^ m₂.foldl crcByte s₂ := by
  intro m₁
  induction m₁ with
  | nil =>
    intro m₂ s₁ s₂ h
    have : m₂ = [] := List.eq_nil_of_length_eq_zero h.symm
    simp [this]
  | cons a m₁ ih =>
    intro m₂ s₁ s₂ h
    match m₂ with
    | [] => simp at h
    | b :: m₂ =>
      simp only [List.zipWith_cons_cons, List.foldl_cons]
      rw [crcByte_xor]
      exact ih m₂ _ _ (by simpa using h)

theorem zipWith_xor_replicate_zero (l : List ℕ) :
    List.zipWith (· ^^^ ·) l (List.replicate l.length 0) = l := by
  induction l with
  | nil => rfl
  | cons a l ih => simp [List.replicate_succ, Nat.xor_zero, ih]

theorem zipWith_xor_delta :
    ∀ (i : ℕ) (p : List ℕ) (x k : ℕ), p.length = i + 1 + k →
      List.zipWith (· ^^^ ·) p (List.replicate i 0 ++ x :: List.replicate k 0)
        = p.set i (p.getD i 0 ^^^ x) := by
  intro i
  induction i with
  | zero =>
    intro p x k h
    match p with
    | [] => simp at h; omega
    | a :: p =>
      have hp : p.length = k := by simp at h; omega
      simp only [List.replicate, List.nil_append, List.zipWith_cons_cons,
        List.getD_cons_zero, List.set_cons_zero]
      rw [← hp, zipWith_xor_replicate_zero]
  | succ i ih =>
    intro p x k h
    match p with
    | [] => simp at h; omega
    | a :: p =>
      simp only [List.replicate_succ, List.cons_append, List.zipWith_cons_cons,
        List.getD_cons_succ, List.set_cons_succ, Nat.xor_zero]
      rw [ih p x k (by simp at h; omega)]

theorem crcRound_lt {c : ℕ} (h : c < 2 ^ 16) : crcRound c < 2 ^ 16 := by
  have h1 : c >>> 1 < 2 ^ 16 := by
    rw [Nat.shiftRight_eq_div_pow, pow_one, two_pow_16_eq]
    rw [two_pow_16_eq] at h
    omega
  unfold crcRound
  split
  · exact Nat.xor_lt_two_pow h1 (by decide)
  · exact h1

theorem crcRound_ne_zero {c : ℕ} (hlt : c < 2 ^ 16) (hne : c ≠ 0) :
    crcRound c ≠ 0 := by
  rw [two_pow_16_eq] at hlt
  by_cases hodd : c % 2 = 1
  · rw [crcRound_eq_odd hodd]
    intro h0
    have h1 : c >>> 1 = CRC_POLY_REV := Nat.xor_eq_zero.mp h0
    rw [Nat.shiftRight_eq_div_pow, pow_one] at h1
    unfold CRC_POLY_REV at h1
    omega
  · rw [crcRound_eq_even (by omega)]
    rw [Nat.shiftRight_eq_div_pow, pow_one]
    intro h0
    omega

theorem crcRound_iterate_bound {c : ℕ} (n : ℕ) (hlt : c < 2 ^ 16) :
    crcRound^[n] c < 2 ^ 16 := by
  induction n with
  | zero => simpa
  | succ n ih => rw [Function.iterate_succ_apply']; exact crcRound_lt ih

theorem crcRound_iterate_ne_zero {c : ℕ} (n : ℕ) (hlt : c < 2 ^ 16)
    (hne : c ≠ 0) : crcRound^[n] c ≠ 0 := by
  induction n with
  | zero => simpa
  | succ n ih =>
    rw [Function.iterate_succ_apply']
    exact crcRound_ne_zero (crcRound_iterate_bound n hlt) ih

theorem crcByte_lt {c b : ℕ} (hc : c < 2 ^ 16) (hb : b < 2 ^ 16) :
    crcByte c b < 2 ^ 16 :=
  crcRound_iterate_bound 8 (Nat.xor_lt_two_pow hc hb)

theorem foldl_crcByte_lt :
    ∀ (p : List ℕ) (s : ℕ), s < 2 ^ 16 → (∀ b ∈ p, b < 256) →
      p.foldl crcByte s < 2 ^ 16 := by
  intro p
  induction p with
  | nil => intro s hs _; simpa
  | cons a p ih =>
    intro s hs hb
    simp only [List.foldl_cons]
    apply ih
    · refine crcByte_lt hs ?_
      have ha : a < 256 := hb a (by simp)
      calc a < 256 := ha
        _ < 2 ^ 16 := by norm_num
    · intro b hbm; exact hb b (by simp [hbm])

theorem crc_func_lt {p : List ℕ} (hbytes : ∀ b ∈ p, b < 256) :
    crc_func p < 2 ^ 16 :=
  foldl_crcByte_lt p CRC_INIT (by decide) hbytes

theorem crcByte_zero_zero : crcByte 0 0 = 0 := by decide

theorem foldl_crcByte_replicate_zero (n : ℕ) :
    (List.replicate n 0).foldl crcByte 0 = 0 := by
  induction n with
  | zero => rfl
  | succ n ih => simpa [List.replicate_succ, crcByte_zero_zero] using ih

theorem foldl_crcByte_zeros_ne_zero :
    ∀ (k : ℕ) {c : ℕ}, c < 2 ^ 16 → c ≠ 0 →
      (List.replicate k 0).foldl crcByte c ≠ 0 := by
  intro k
  induction k with
  | zero => intro c _ h2; exact h2
  | succ k ih =>
    intro c h1 h2
    simp only [List.replicate_succ, List.foldl_cons]
    apply ih
    · exact crcByte_lt h1 (by norm_num)
    · unfold crcByte
      rw [Nat.xor_zero]
      exact crcRound_iterate_ne_zero 8 h1 h2

theorem crc_func_flip (p : List ℕ) (i j : ℕ) (hi : i < p.length) :
    crc_func (flip_payload_bit p i j)
      = crc_func p ^^^
        (List.replicate i 0 ++ 2 ^ j :: List.replicate (p.length - i - 1) 0).foldl
          crcByte 0 := by
  unfold crc_func flip_payload_bit
  rw [← zipWith_xor_delta i p (2 ^ j) (p.length - i - 1) (by omega)]
  conv_lhs => rw [show CRC_INIT = CRC_INIT ^^^ 0 from (Nat.xor_zero _).symm]
  refine foldl_crcByte_xor p _ CRC_INIT 0 ?_
  simp
  omega

theorem crc_delta_ne_zero (i k j : ℕ) (hj : j < 8) :
    (List.replicate i 0 ++ 2 ^ j :: List.replicate k 0).foldl crcByte 0 ≠ 0 := by
  rw [List.foldl_append, foldl_crcByte_replicate_zero]
  simp only [List.foldl_cons]
  have hjlt : (2 : ℕ) ^ j < 2 ^ 16 := by
    calc (2 : ℕ) ^ j < 2 ^ 8 := Nat.pow_lt_pow_right (by norm_num) hj
      _ < 2 ^ 16 := by norm_num
  apply foldl_crcByte_zeros_ne_zero
  · exact crcByte_lt (by norm_num) hjlt
  · unfold crcByte
    rw [Nat.zero_xor]
    exact crcRound_iterate_ne_zero 8 hjlt (by positivity)

/-- C2. For every 89-byte payload, appending its CRC-16 (polynomial 0x11021,
initial value 0x3692, reflected input and output) as two little-endian bytes
and recomputing the CRC over the first 89 bytes yields the embedded CRC; and
flipping any single bit of the payload makes the recomputed CRC differ from
the embedded CRC of the unflipped payload. -/
theorem crc_round_trip_and_single_bit_detection (p : List ℕ)
    (hlen : p.length = 89) (hbytes : ∀ b ∈ p, b < 256) :
    crc_func ((full_packet p).take 89) = uLE (full_packet p) 89 2
    ∧ ∀ i < 89, ∀ j < 8,
        crc_func (flip_payload_bit p i j) ≠ uLE (full_packet p) 89 2 := by
  have hcrc : crc_func p < 2 ^ 16 := crc_func_lt hbytes
  have htake : (full_packet p).take 89 = p := by
    unfold full_packet
    rw [← hlen]
    exact List.take_left p _
  have hembed : uLE (full_packet p) 89 2 = crc_func p := by
    unfold full_packet uLE
    rw [← hlen, List.drop_left]
    simp only [decLE]
    rw [two_pow_16_eq] at hcrc
    omega
  constructor
  · rw [htake, hembed]
  · intro i hi j hj
    rw [hembed, crc_func_flip p i j (by omega)]
    intro heq
    have hD : (List.replicate i 0 ++ 2 ^ j ::
        List.replicate (p.length - i - 1) 0).foldl crcByte 0 = 0 := by
      have h2 : crc_func p ^^^ (crc_func p ^^^ _) = crc_func p ^^^ crc_func p :=
        congrArg (fun x => crc_func p ^^^ x) heq
      rwa [← Nat.xor_assoc, Nat.xor_self, Nat.zero_xor] at h2
    exact crc_delta_ne_zero i (p.length - i - 1) j hj hD

/-- Witness for C2 at the all-zero payload. -/
theorem crc_round_trip_and_single_bit_detection_witness :
    (List.replicate 89 0).length = 89
    ∧ (∀ b ∈ List.replicate 89 0, b < 256)
    ∧ (crc_func ((full_packet (List.replicate 89 0)).take 89)
          = uLE (full_packet (List.replicate 89 0)) 89 2
       ∧ ∀ i < 89, ∀ j < 8,
          crc_func (flip_payload_bit (List.replicate 89 0) i j)
            ≠ uLE (full_packet (List.replicate 89 0)) 89 2) :=
  ⟨by simp, by decide,
   crc_round_trip_and_single_bit_detection (List.replicate 89 0)
     (by simp) (by decide)⟩

/-! ## FrequencyScanner lemmas -/

theorem recordFalse_iterate_locked (s : FrequencyScanner) (f : ℚ) :
    ∀ n, n ≤ 9 → recordFalse^[n] (s.lock_frequency f)
      = ⟨s.all_frequencies, .LOCKED, some f, s.current_index, n⟩ := by
  intro n
  induction n with
  | zero => intro _; rfl
  | succ n ih =>
    intro h
    rw [Function.iterate_succ_apply', ih (by omega)]
    simp [recordFalse, FrequencyScanner.record_detection,
      FrequencyScanner.unlock_frequency, UNLOCK_THRESHOLD,
      show ¬ (10 ≤ n + 1) from by omega]

/-- C3. Locking and then recording nine consecutive non-detections keeps the
scanner LOCKED with the counter equal to the number of non-detections; the
tenth non-detection moves it to SCANNING with the locked frequency cleared
and the counter reset; and a detection at any point before the tenth resets
the counter to zero while staying LOCKED. -/
theorem scanner_unlock_hysteresis (s : FrequencyScanner) (f : ℚ) :
    (∀ n, n ≤ 9 →
      (recordFalse^[n] (s.lock_frequency f)).state = .LOCKED
      ∧ (recordFalse^[n] (s.lock_frequency f)).locked_frequency = some f
      ∧ (recordFalse^[n] (s.lock_frequency f)).empty_scan_count = n)
    ∧ (recordFalse^[10] (s.lock_frequency f)).state = .SCANNING
    ∧ (recordFalse^[10] (s.lock_frequency f)).locked_frequency = none
    ∧ (recordFalse^[10] (s.lock_frequency f)).empty_scan_count = 0
    ∧ ∀ n, n ≤ 9 →
        ((recordFalse^[n] (s.lock_frequency f)).record_detection true).state
          = .LOCKED
        ∧ ((recordFalse^[n] (s.lock_frequency f)).record_detection
            true).locked_frequency = some f
        ∧ ((recordFalse^[n] (s.lock_frequency f)).record_detection
            true).empty_scan_count = 0 := by
  have h10 : recordFalse^[10] (s.lock_frequency f)
      = ⟨s.all_frequencies, .SCANNING, none, s.current_index, 0⟩ := by
    rw [show (10 : ℕ) = 9 + 1 from rfl, Function.iterate_succ_apply',
        recordFalse_iterate_locked s f 9 (by omega)]
    simp [recordFalse, FrequencyScanner.record_detection,
      FrequencyScanner.unlock_frequency, UNLOCK_THRESHOLD]
  refine ⟨?_, ?_, ?_, ?_, ?_⟩
  · intro n hn
    rw [recordFalse_iterate_locked s f n hn]
    exact ⟨rfl, rfl, rfl⟩
  · rw [h10]
  · rw [h10]
  · rw [h10]
  · intro n hn
    rw [recordFalse_iterate_locked s f n hn]
    simp [FrequencyScanner.record_detection]

/-- Witness for C3 at a freshly initialised 2.4-GHz-only scanner. -/
theorem scanner_unlock_hysteresis_witness :
    (9 : ℕ) ≤ 9
    ∧ (recordFalse^[9]
        ((FrequencyScanner.init true).lock_frequency 2459500000)).state
        = .LOCKED
    ∧ (recordFalse^[9]
        ((FrequencyScanner.init true).lock_frequency
          2459500000)).empty_scan_count = 9
    ∧ (recordFalse^[10]
        ((FrequencyScanner.init true).lock_frequency 2459500000)).state
        = .SCANNING
    ∧ ((recordFalse^[5]
        ((FrequencyScanner.init true).lock_frequency
          2459500000)).record_detection true).empty_scan_count = 0 :=
  ⟨le_refl 9,
   ((scanner_unlock_hysteresis (FrequencyScanner.init true) 2459500000).1 9
      (by omega)).1,
   ((scanner_unlock_hysteresis (FrequencyScanner.init true) 2459500000).1 9
      (by omega)).2.2,
   (scanner_unlock_hysteresis (FrequencyScanner.init true) 2459500000).2.1,
   ((scanner_unlock_hysteresis (FrequencyScanner.init true)
      2459500000).2.2.2.2 5 (by omega)).2.2⟩

theorem get_next_frequency_scanning (s : FrequencyScanner)
    (hs : s.state = .SCANNING) :
    s.get_next_frequency
      = (s.all_frequencies.getD s.current_index 0,
         { s with current_index :=
            (s.current_index + 1) % s.all_frequencies.length }) := by
  unfold FrequencyScanner.get_next_frequency
  rw [if_neg]
  simp [hs]

theorem get_next_n_scanning :
    ∀ (k : ℕ) (s : FrequencyScanner), s.state = .SCANNING →
      s.current_index < s.all_frequencies.length →
      (get_next_n k s).1 = (List.range k).map
          (fun m => s.all_frequencies.getD
            ((s.current_index + m) % s.all_frequencies.length) 0)
      ∧ (get_next_n k s).2
          = { s with current_index :=
              (s.current_index + k) % s.all_frequencies.length } := by
  intro k
  induction k with
  | zero =>
    intro s hs hidx
    refine ⟨rfl, ?_⟩
    have h0 : (s.current_index + 0) % s.all_frequencies.length
        = s.current_index := by
      rw [Nat.add_zero]; exact Nat.mod_eq_of_lt hidx
    rw [h0]
    rfl
  | succ k ih =>
    intro s hs hidx
    have hlen : 0 < s.all_frequencies.length := by omega
    have hidx1 : (s.current_index + 1) % s.all_frequencies.length
        < s.all_frequencies.length := Nat.mod_lt _ hlen
    obtain ⟨ih1, ih2⟩ := ih
      { s with current_index :=
          (s.current_index + 1) % s.all_frequencies.length } hs hidx1
    simp only [get_next_n, get_next_frequency_scanning s hs]
    constructor
    · rw [ih1, List.range_succ_eq_map, List.map_cons, List.map_map]
      dsimp only
      congr 1
      · rw [Nat.add_zero, Nat.mod_eq_of_lt hidx]
      · apply List.map_congr_left
        intro m _
        simp only [Function.comp_apply]
        rw [Nat.mod_add_mod]
        have harg : s.current_index + 1 + m = s.current_index + Nat.succ m := by
          omega
        rw [harg]
    · rw [ih2]
      have harg : ((s.current_index + 1) % s.all_frequencies.length + k)
          % s.all_frequencies.length
          = (s.current_index + (k + 1)) % s.all_frequencies.length := by
        rw [Nat.mod_add_mod]
        congr 1
        omega
      dsimp only
      rw [harg]

theorem map_getD_range_rotate (l : List ℚ) (i : ℕ) (hi : i < l.length) :
    (List.range l.length).map (fun m => l.getD ((i + m) % l.length) 0)
      = l.rotate i := by
  apply List.ext_get
  · simp
  · intro n h₁ h₂
    have hn : n < l.length := by simpa using h₁
    have hmod : (i + n) % l.length < l.length := Nat.mod_lt _ (by omega)
    rw [List.get_map, List.get_rotate]
    simp only [List.get_range]
    rw [List.getD_eq_getElem l 0 hmod]
    simp only [List.get_eq_getElem]
    congr 1
    rw [Nat.add_comm]

/-- C6. From any SCANNING state with a valid cursor, as many calls to
`get_next_frequency` as there are configured channels return exactly the
channel list rotated to start at the cursor (each channel exactly once, in
list order), and leave the scanner in its starting state, so the cycle
repeats; and a LOCKED scanner returns its locked frequency and stays put,
regardless of the cursor. -/
theorem scanner_cycle_and_locked_frequency (s t : FrequencyScanner) (f : ℚ)
    (hs : s.state = .SCANNING)
    (hidx : s.current_index < s.all_frequencies.length)
    (ht1 : t.state = .LOCKED) (ht2 : t.locked_frequency = some f) :
    (get_next_n s.all_frequencies.length s).1
        = s.all_frequencies.rotate s.current_index
    ∧ (get_next_n s.all_frequencies.length s).1.Perm s.all_frequencies
    ∧ (get_next_n s.all_frequencies.length s).2 = s
    ∧ t.get_next_frequency = (f, t) := by
  obtain ⟨h1, h2⟩ := get_next_n_scanning s.all_frequencies.length s hs hidx
  have hrot : (get_next_n s.all_frequencies.length s).1
      = s.all_frequencies.rotate s.current_index := by
    rw [h1]
    exact map_getD_range_rotate s.all_frequencies s.current_index hidx
  refine ⟨hrot, ?_, ?_, ?_⟩
  · rw [hrot]; exact List.rotate_perm s.all_frequencies s.current_index
  · rw [h2]
    have : (s.current_index + s.all_frequencies.length)
        % s.all_frequencies.length = s.current_index := by
      rw [Nat.add_mod_right]
      exact Nat.mod_eq_of_lt hidx
    rw [this]
  · unfold FrequencyScanner.get_next_frequency
    rw [if_pos ⟨ht1, by simp [ht2]⟩]
    rw [ht2]
    rfl

/-- Witness for C6 at a scanning scanner with the cursor at channel 2 and a
locked scanner holding 2459.5 MHz. -/
theorem scanner_cycle_and_locked_frequency_witness :
    (⟨FREQUENCIES_2_4GHZ, .SCANNING, none, 2, 0⟩ :
        FrequencyScanner).state = .SCANNING
    ∧ (⟨FREQUENCIES_2_4GHZ, .SCANNING, none, 2, 0⟩ :
        FrequencyScanner).current_index
        < (⟨FREQUENCIES_2_4GHZ, .SCANNING, none, 2, 0⟩ :
            FrequencyScanner).all_frequencies.length
    ∧ (⟨FREQUENCIES_2_4GHZ, .LOCKED, some 2459500000, 4, 3⟩ :
        FrequencyScanner).state = .LOCKED
    ∧ (⟨FREQUENCIES_2_4GHZ, .LOCKED, some 2459500000, 4, 3⟩ :
        FrequencyScanner).locked_frequency = some 2459500000
    ∧ ((get_next_n (⟨FREQUENCIES_2_4GHZ, .SCANNING, none, 2, 0⟩ :
          FrequencyScanner).all_frequencies.length
          ⟨FREQUENCIES_2_4GHZ, .SCANNING, none, 2, 0⟩).1
        = FREQUENCIES_2_4GHZ.rotate 2
       ∧ (get_next_n (⟨FREQUENCIES_2_4GHZ, .SCANNING, none, 2, 0⟩ :
            FrequencyScanner).all_frequencies.length
            ⟨FREQUENCIES_2_4GHZ, .SCANNING, none, 2, 0⟩).1.Perm
            FREQUENCIES_2_4GHZ
       ∧ (get_next_n (⟨FREQUENCIES_2_4GHZ, .SCANNING, none, 2, 0⟩ :
            FrequencyScanner).all_frequencies.length
            ⟨FREQUENCIES_2_4GHZ, .SCANNING, none, 2, 0⟩).2
            = ⟨FREQUENCIES_2_4GHZ, .SCANNING, none, 2, 0⟩
       ∧ (⟨FREQUENCIES_2_4GHZ, .LOCKED, some 2459500000, 4, 3⟩ :
            FrequencyScanner).get_next_frequency
            = (2459500000, ⟨FREQUENCIES_2_4GHZ, .LOCKED, some 2459500000, 4, 3⟩)) :=
  ⟨rfl, by decide, rfl, rfl,
   scanner_cycle_and_locked_frequency
     ⟨FREQUENCIES_2_4GHZ, .SCANNING, none, 2, 0⟩
     ⟨FREQUENCIES_2_4GHZ, .LOCKED, some 2459500000, 4, 3⟩
     2459500000 rfl (by decide) rfl rfl⟩

/-! ## Phase loop lemmas -/

theorem phase_loop_aux_tried (attempt : PhaseAttempt) :
    ∀ (ps : List ℕ) (st : DemodState),
      (phase_loop_aux attempt ps st).tried
        = st.tried ++ take_until_crc_valid attempt ps := by
  intro ps
  induction ps with
  | nil => intro st; simp [phase_loop_aux, take_until_crc_valid]
  | cons p ps ih =>
    intro st
    cases hap : attempt p with
    | none =>
      simp [phase_loop_aux, take_until_crc_valid, hap, ih, List.append_assoc]
    | some b =>
      cases b with
      | true => simp [phase_loop_aux, take_until_crc_valid, hap]
      | false =>
        simp [phase_loop_aux, take_until_crc_valid, hap, ih, List.append_assoc]

theorem phase_loop_aux_found_mono (attempt : PhaseAttempt) :
    ∀ (ps : List ℕ) (st : DemodState), st.found = true →
      (phase_loop_aux attempt ps st).found = true := by
  intro ps
  induction ps with
  | nil => intro st h; exact h
  | cons p ps ih =>
    intro st h
    cases hap : attempt p with
    | none =>
      simp only [phase_loop_aux, hap]
      exact ih _ h
    | some b =>
      cases b with
      | true => simp [phase_loop_aux, hap]
      | false =>
        simp only [phase_loop_aux, hap, if_neg]
        exact ih _ rfl

theorem phase_loop_aux_found (attempt : PhaseAttempt) :
    ∀ (ps : List ℕ) (st : DemodState), st.found = false →
      ((phase_loop_aux attempt ps st).found = true
        ↔ ∃ p ∈ ps, (attempt p).isSome) := by
  intro ps
  induction ps with
  | nil => intro st h; simp [phase_loop_aux, h]
  | cons p ps ih =>
    intro st h
    cases hap : attempt p with
    | none =>
      simp only [phase_loop_aux, hap]
      rw [ih { st with tried := st.tried ++ [p] } h]
      simp [hap]
    | some b =>
      have hex : ∃ q ∈ p :: ps, (attempt q).isSome :=
        ⟨p, List.mem_cons_self p ps, by simp [hap]⟩
      cases b with
      | true =>
        simp only [phase_loop_aux, hap]
        exact ⟨fun _ => hex, fun _ => rfl⟩
      | false =>
        simp only [phase_loop_aux, hap]
        have hmono := phase_loop_aux_found_mono attempt ps
          { st with tried := st.tried ++ [p], found := true,
                    decoded_successfully := true,
                    crc_err := st.crc_err + 1 } rfl
        exact ⟨fun _ => hex, fun _ => hmono⟩

/-- C1 counterexample. With phase 0 structurally valid but CRC-failing and
phase 1 structurally valid and CRC-passing, the claim predicts that only
phase 0 is tried (the first structurally valid hypothesis wins and its CRC
failure does not retry other phases); the code tries phase 1 as well. -/
theorem run_demod_phase_selection_counterexample :
    c1_attempt 0 = some false
    ∧ spec_tried_phases c1_attempt = [0]
    ∧ (phase_loop c1_attempt).tried = [0, 1]
    ∧ (phase_loop c1_attempt).tried ≠ spec_tried_phases c1_attempt := by
  refine ⟨rfl, by decide, by decide, by decide⟩

/-- C1 (amended). The decoder tries phase hypotheses 0,1,2,3 in increasing
order and stops at the first hypothesis that yields a structurally valid
RawFrame AND passes its CRC check; when a structurally valid hypothesis
fails its CRC check, the later phase hypotheses ARE tried for that burst,
so CRC validity is used to select among phases; independently, the found
flag reported to the caller is set by any structural success, CRC-valid or
not. -/
theorem run_demod_phase_selection (attempt : PhaseAttempt) :
    (phase_loop attempt).tried = take_until_crc_valid attempt [0, 1, 2, 3]
    ∧ ((phase_loop attempt).found = true
        ↔ ∃ p ∈ [0, 1, 2, 3], (attempt p).isSome) := by
  constructor
  · have h := phase_loop_aux_tried attempt [0, 1, 2, 3] init_demod
    simpa [init_demod] using h
  · exact phase_loop_aux_found attempt [0, 1, 2, 3] init_demod rfl

/-! ## run_demod and worker feedback lemmas -/

theorem run_demod_aux_take :
    ∀ (pkts : List PacketOutcome) (c : ℕ) (found : Bool),
      run_demod_aux pkts c found
        = (found || ((pkts.filterMap fun pk =>
            match pk with
            | .skip => none
            | .decode a => some a).take (5 - c)).any
              fun a => (phase_loop a).found) := by
  intro pkts
  induction pkts with
  | nil => intro c found; simp [run_demod_aux]
  | cons pk pkts ih =>
    intro c found
    simp only [run_demod_aux]
    by_cases hc : 5 ≤ c
    · rw [if_pos hc]
      have h0 : 5 - c = 0 := by omega
      simp [h0]
    · rw [if_neg hc]
      cases pk with
      | skip =>
        rw [ih]
        simp only [List.filterMap_cons]
      | decode a =>
        have h5 : 5 - c = (5 - (c + 1)) + 1 := by omega
        simp only [List.filterMap_cons, h5, List.take_succ_cons, List.any_cons]
        rw [ih (c + 1) (found || (phase_loop a).found), Bool.or_assoc]

theorem run_demod_eq_any (pkts : List PacketOutcome) :
    run_demod pkts
      = (processed_attempts pkts).any fun a => (phase_loop a).found := by
  unfold run_demod processed_attempts
  rw [run_demod_aux_take]
  simp

/-- C9. Whenever some packet that reaches the phase loop has a phase
hypothesis that parses structurally but fails its CRC check, run_demod
still returns True, so the worker puts the frequency on the detection
queue and locks its local scanner to that frequency: frequency locking is
driven by structural decode success alone, independent of CRC validity. -/
theorem crc_fail_still_locks_frequency (pkts : List PacketOutcome)
    (freq : ℚ) (scanner : FrequencyScanner) (a : PhaseAttempt) (p : ℕ)
    (ha : a ∈ processed_attempts pkts) (hp : p < 4)
    (hcrc : a p = some false) :
    run_demod pkts = true
    ∧ worker_step (run_demod pkts) freq scanner
        = (some freq, scanner.lock_frequency freq)
    ∧ (scanner.lock_frequency freq).state = .LOCKED
    ∧ (scanner.lock_frequency freq).locked_frequency = some freq := by
  have hfound : (phase_loop a).found = true := by
    unfold phase_loop
    rw [phase_loop_aux_found a [0, 1, 2, 3] init_demod rfl]
    refine ⟨p, ?_, by simp [hcrc]⟩
    interval_cases p <;> decide
  have hrun : run_demod pkts = true := by
    rw [run_demod_eq_any, List.any_eq_true]
    exact ⟨a, ha, hfound⟩
  refine ⟨hrun, ?_, rfl, rfl⟩
  rw [hrun]
  rfl

/-- Witness for C9: one packet whose phase 0 parses with a failing CRC. -/
theorem crc_fail_still_locks_frequency_witness :
    c9_attempt ∈ processed_attempts c9_pkts
    ∧ (0 : ℕ) < 4
    ∧ c9_attempt 0 = some false
    ∧ (run_demod c9_pkts = true
       ∧ worker_step (run_demod c9_pkts) 2444500000 (FrequencyScanner.init true)
          = (some 2444500000,
             (FrequencyScanner.init true).lock_frequency 2444500000)
       ∧ ((FrequencyScanner.init true).lock_frequency 2444500000).state
          = .LOCKED
       ∧ ((FrequencyScanner.init true).lock_frequency
            2444500000).locked_frequency = some 2444500000) :=
  ⟨by simp [processed_attempts, c9_pkts], by omega, by simp [c9_attempt],
   crc_fail_still_locks_frequency c9_pkts 2444500000
     (FrequencyScanner.init true) c9_attempt 0
     (by simp [processed_attempts, c9_pkts]) (by omega)
     (by simp [c9_attempt])⟩

/-! ## Packetizer candidate-loop lemmas -/

theorem find_packet_loop_extends {α : Type} (legacy : Bool) :
    ∀ (cands : List (Candidate α)) (packets : List (List α × ℚ)) (cfo : ℚ),
      ∃ t, (find_packet_loop legacy cands packets cfo).1 = packets ++ t := by
  intro cands
  induction cands with
  | nil => intro packets cfo; exact ⟨[], by simp [find_packet_loop]⟩
  | cons c rest ih =>
    intro packets cfo
    simp only [find_packet_loop]
    by_cases hf : c.found = true
    · rw [if_pos hf]
      by_cases h3 : 3 ≤ (packets ++ [(c.data, c.est)]).length
      · rw [if_pos h3]; exact ⟨[(c.data, c.est)], rfl⟩
      · rw [if_neg h3]
        obtain ⟨t, ht⟩ := ih (packets ++ [(c.data, c.est)]) c.est
        exact ⟨[(c.data, c.est)] ++ t, by rw [ht, List.append_assoc]⟩
    · rw [if_neg hf]
      by_cases hleg : legacy = true
      · rw [if_pos hleg]
        by_cases h3 : 3 ≤ (packets ++ [(c.data, 0)]).length
        · rw [if_pos h3]; exact ⟨[(c.data, 0)], rfl⟩
        · rw [if_neg h3]
          obtain ⟨t, ht⟩ := ih (packets ++ [(c.data, 0)]) 0
          exact ⟨[(c.data, 0)] ++ t, by rw [ht, List.append_assoc]⟩
      · rw [if_neg hleg]
        exact ih packets c.est

theorem find_packet_loop_length {α : Type} (legacy : Bool) :
    ∀ (cands : List (Candidate α)) (packets : List (List α × ℚ)) (cfo : ℚ),
      packets.length ≤ 2 →
      (find_packet_loop legacy cands packets cfo).1.length ≤ 3 := by
  intro cands
  induction cands with
  | nil => intro packets cfo h; simpa [find_packet_loop] using by omega
  | cons c rest ih =>
    intro packets cfo h
    simp only [find_packet_loop]
    by_cases hf : c.found = true
    · rw [if_pos hf]
      by_cases h3 : 3 ≤ (packets ++ [(c.data, c.est)]).length
      · rw [if_pos h3]; simp; omega
      · rw [if_neg h3]
        apply ih
        simp at h3 ⊢
        omega
    · rw [if_neg hf]
      by_cases hleg : legacy = true
      · rw [if_pos hleg]
        by_cases h3 : 3 ≤ (packets ++ [(c.data, 0)]).length
        · rw [if_pos h3]; simp; omega
        · rw [if_neg h3]
          apply ih
          simp at h3 ⊢
          omega
      · rw [if_neg hleg]
        exact ih packets c.est h

/-- C8. One call to find_packet_candidate_time returns at most 3 burst
candidates, for every input and packet type (the early-exit break fires as
soon as three are collected). -/
theorem at_most_three_candidates {α : Type} (legacy : Bool)
    (cands : List (Candidate α)) :
    (find_packet_candidate_time legacy cands).1.length ≤ 3 := by
  unfold find_packet_candidate_time
  rw [List.length_map]
  exact find_packet_loop_length legacy cands [] 0 (by simp)

/-- C7. A width-qualifying candidate whose offset estimation reports
not-found is skipped without being emitted when legacy is false (the loop
continues with the remaining candidates and an unchanged accepted list),
and is emitted with its carrier offset forced to 0.0 Hz when legacy is
true. -/
theorem offset_not_found_legacy_handling {α : Type} (c : Candidate α)
    (rest : List (Candidate α)) (packets : List (List α × ℚ)) (cfo : ℚ)
    (hc : c.found = false) :
    find_packet_loop false (c :: rest) packets cfo
        = find_packet_loop false rest packets c.est
    ∧ (c.data, (0 : ℚ)) ∈ (find_packet_loop true (c :: rest) packets cfo).1 := by
  constructor
  · simp only [find_packet_loop]
    rw [if_neg (by simp [hc]), if_neg (by simp)]
  · simp only [find_packet_loop]
    rw [if_neg (by simp [hc]), if_pos (by trivial)]
    by_cases h3 : 3 ≤ (packets ++ [(c.data, 0)]).length
    · rw [if_pos h3]; simp
    · rw [if_neg h3]
      obtain ⟨t, ht⟩ :=
        find_packet_loop_extends true rest (packets ++ [(c.data, 0)]) 0
      rw [ht]
      simp

/-- Witness for C7 at a single not-found candidate. -/
theorem offset_not_found_legacy_handling_witness :
    (⟨[(1 : ℕ), 2], 5, false⟩ : Candidate ℕ).found = false
    ∧ (find_packet_loop false [(⟨[1, 2], 5, false⟩ : Candidate ℕ)] [] 0
        = find_packet_loop false ([] : List (Candidate ℕ)) []
            (⟨[1, 2], 5, false⟩ : Candidate ℕ).est
       ∧ ((⟨[1, 2], 5, false⟩ : Candidate ℕ).data, (0 : ℚ))
          ∈ (find_packet_loop true [(⟨[1, 2], 5, false⟩ : Candidate ℕ)] [] 0).1) :=
  ⟨rfl, offset_not_found_legacy_handling ⟨[1, 2], 5, false⟩ [] [] 0 rfl⟩

/-! ## Burst slicing at the capture head -/

/-- C10. A width-qualifying burst whose left edge is at the very start of
the capture (less than 45 microseconds in) makes the slice start index
int((start - start_offset) * Fs) negative (-45 here); Python then counts
it from the end of the buffer, so the emitted candidate holds the empty
sample list instead of the guard-expanded burst samples (which are the
nonempty slice from 0 to 685). -/
theorem negative_slice_start_hazard :
    ratTrunc ((((0 : ℕ) : ℚ) * stft_dt c10_Fs - start_offset) * c10_Fs) = -45
    ∧ burst_slice c10_raw c10_Fs (stft_dt c10_Fs) 0 10 = []
    ∧ c10_raw.take 685 ≠ []
    ∧ (find_packet_candidate_time false
        [⟨burst_slice c10_raw c10_Fs (stft_dt c10_Fs) 0 10, 0, true⟩]).1
        = [[]] := by
  have ht1 : ratTrunc (-45 : ℚ) = -45 := by
    unfold ratTrunc
    rw [if_neg (by norm_num)]
    norm_num
  have ht2 : ratTrunc (685 : ℚ) = 685 := by
    unfold ratTrunc
    rw [if_pos (by norm_num)]
    norm_num
  have ha1 : (((0 : ℕ) : ℚ) * stft_dt c10_Fs - start_offset) * c10_Fs
      = -45 := by
    norm_num [stft_dt, start_offset, c10_Fs]
  have ha2 : (((10 : ℕ) : ℚ) * stft_dt c10_Fs + start_offset) * c10_Fs
      = 685 := by
    norm_num [stft_dt, start_offset, c10_Fs]
  have hbs : burst_slice c10_raw c10_Fs (stft_dt c10_Fs) 0 10
      = pySlice c10_raw (-45) 685 := by
    unfold burst_slice
    rw [ha1, ha2, ht1, ht2]
  have hlen : c10_raw.length = 2000 := by simp [c10_raw]
  have hslice : pySlice c10_raw (-45) 685 = [] := by
    unfold pySlice pySliceIndex
    rw [hlen]
    rw [if_pos (by norm_num : (-45 : ℤ) < 0),
        if_neg (by norm_num : ¬ (685 : ℤ) < 0)]
    norm_num
  refine ⟨by rw [ha1, ht1], by rw [hbs, hslice], ?_, ?_⟩
  · intro h
    have := congrArg List.length h
    rw [List.length_take, hlen] at this
    simp at this
  · rw [hbs, hslice]
    rfl

/-! ## Telemetry layout lemmas -/

theorem length_encLE (n : ℕ) : ∀ v, (encLE n v).length = n := by
  induction n with
  | zero => intro v; rfl
  | succ n ih => intro v; simp [encLE, ih]

theorem length_padBytes (n : ℕ) (l : List ℕ) : (padBytes n l).length = n := by
  unfold padBytes
  rw [List.length_take, List.length_append, List.length_replicate]
  omega

theorem drop_chunk {α : Type} (a b : List α) (n m : ℕ) (h : a.length = n) :
    (a ++ b).drop (n + m) = b.drop m := by
  subst h
  simp [List.drop_append]

theorem decLE_encLE_append (n : ℕ) :
    ∀ (v : ℕ) (r : List ℕ), decLE n (encLE n v ++ r) = v % 256 ^ n := by
  induction n with
  | zero => intro v r; simp [decLE, encLE, Nat.mod_one]
  | succ n ih =>
    intro v r
    simp only [encLE, List.cons_append, decLE, List.append_eq]
    rw [ih (v / 256) r, pow_succ', Nat.mod_mul]

theorem toSigned_toUnsigned_32 (x : ℤ) (h1 : -2147483648 ≤ x)
    (h2 : x < 2147483648) :
    toSigned 32 (toUnsigned 32 x % 256 ^ 4) = x := by
  unfold toSigned toUnsigned
  norm_num
  split <;> omega

theorem toSigned_toUnsigned_16 (x : ℤ) (h1 : -32768 ≤ x) (h2 : x < 32768) :
    toSigned 16 (toUnsigned 16 x % 256 ^ 2) = x := by
  unfold toSigned toUnsigned
  norm_num
  split <;> omega

/-- C4. Packing raw int32 GPS values and raw int16 altitude and height
values into the frame layout and decoding the frame yields longitude and
latitude equal to raw / 174533.0 and altitude and height equal to
round(raw / 3.281, 2), with 3.281 = 3281/1000 and Python half-even
rounding at two decimals; the packed payload is exactly 89 bytes. -/
theorem telemetry_gps_altitude_scaling (f : DroneIDFields)
    (hlon1 : -2147483648 ≤ f.longitude) (hlon2 : f.longitude < 2147483648)
    (hlat1 : -2147483648 ≤ f.latitude) (hlat2 : f.latitude < 2147483648)
    (halt1 : -32768 ≤ f.altitude) (halt2 : f.altitude < 32768)
    (hh1 : -32768 ≤ f.height) (hh2 : f.height < 32768) :
    (parse_droneid (pack_droneid f)).longitude = (f.longitude : ℚ) / 174533
    ∧ (parse_droneid (pack_droneid f)).latitude = (f.latitude : ℚ) / 174533
    ∧ (parse_droneid (pack_droneid f)).altitude
        = py_round_2 ((f.altitude : ℚ) / (3281 / 1000))
    ∧ (parse_droneid (pack_droneid f)).height
        = py_round_2 ((f.height : ℚ) / (3281 / 1000))
    ∧ (pack_droneid f).length = 89 := by
  have hd23 : (pack_droneid f).drop 23
      = encLE 4 (toUnsigned 32 f.longitude) ++
        (encLE 4 (toUnsigned 32 f.latitude) ++
        (encLE 2 (toUnsigned 16 f.altitude) ++
        (encLE 2 (toUnsigned 16 f.height) ++
        (encLE 2 (toUnsigned 16 f.v_north) ++
        (encLE 2 (toUnsigned 16 f.v_east) ++
        (encLE 2 (toUnsigned 16 f.v_up) ++
        (encLE 2 (toUnsigned 16 f.d_1_angle) ++
        (encLE 8 f.gps_time ++
        (encLE 4 (toUnsigned 32 f.app_lat) ++
        (encLE 4 (toUnsigned 32 f.app_lon) ++
        (encLE 4 (toUnsigned 32 f.longitude_home) ++
        (encLE 4 (toUnsigned 32 f.latitude_home) ++
        (encLE 1 f.device_type ++
        (encLE 1 f.uuid_len ++
        padBytes 20 f.uuid)))))))))))))) := by
    unfold pack_droneid
    rw [show (23 : ℕ) = 1 + 22 from rfl,
        drop_chunk _ _ 1 22 (length_encLE 1 _),
        show (22 : ℕ) = 1 + 21 from rfl,
        drop_chunk _ _ 1 21 (length_encLE 1 _),
        show (21 : ℕ) = 1 + 20 from rfl,
        drop_chunk _ _ 1 20 (length_encLE 1 _),
        show (20 : ℕ) = 2 + 18 from rfl,
        drop_chunk _ _ 2 18 (length_encLE 2 _),
        show (18 : ℕ) = 2 + 16 from rfl,
        drop_chunk _ _ 2 16 (length_encLE 2 _),
        show (16 : ℕ) = 16 + 0 from rfl,
        drop_chunk _ _ 16 0 (length_padBytes 16 _),
        List.drop_zero]
  have hlon : uLE (pack_droneid f) 23 4 = toUnsigned 32 f.longitude % 256 ^ 4 := by
    unfold uLE
    rw [hd23, decLE_encLE_append]
  have hlat : uLE (pack_droneid f) 27 4 = toUnsigned 32 f.latitude % 256 ^ 4 := by
    unfold uLE
    rw [show (27 : ℕ) = 23 + 4 from rfl, ← List.drop_drop, hd23,
        show (4 : ℕ) = 4 + 0 from rfl,
        drop_chunk _ _ 4 0 (length_encLE 4 _), List.drop_zero,
        decLE_encLE_append]
  have halt : uLE (pack_droneid f) 31 2 = toUnsigned 16 f.altitude % 256 ^ 2 := by
    unfold uLE
    rw [show (31 : ℕ) = 23 + 8 from rfl, ← List.drop_drop, hd23,
        show (8 : ℕ) = 4 + 4 from rfl,
        drop_chunk _ _ 4 4 (length_encLE 4 _),
        show (4 : ℕ) = 4 + 0 from rfl,
        drop_chunk _ _ 4 0 (length_encLE 4 _), List.drop_zero,
        decLE_encLE_append]
  have hheight : uLE (pack_droneid f) 33 2 = toUnsigned 16 f.height % 256 ^ 2 := by
    unfold uLE
    rw [show (33 : ℕ) = 23 + 10 from rfl, ← List.drop_drop, hd23,
        show (10 : ℕ) = 4 + 6 from rfl,
        drop_chunk _ _ 4 6 (length_encLE 4 _),
        show (6 : ℕ) = 4 + 2 from rfl,
        drop_chunk _ _ 4 2 (length_encLE 4 _),
        show (2 : ℕ) = 2 + 0 from rfl,
        drop_chunk _ _ 2 0 (length_encLE 2 _), List.drop_zero,
        decLE_encLE_append]
  refine ⟨?_, ?_, ?_, ?_, ?_⟩
  · simp only [parse_droneid]
    rw [hlon, toSigned_toUnsigned_32 f.longitude hlon1 hlon2]
  · simp only [parse_droneid]
    rw [hlat, toSigned_toUnsigned_32 f.latitude hlat1 hlat2]
  · simp only [parse_droneid]
    rw [halt, toSigned_toUnsigned_16 f.altitude halt1 halt2]
  · simp only [parse_droneid]
    rw [hheight, toSigned_toUnsigned_16 f.height hh1 hh2]
  · simp [pack_droneid, length_encLE, length_padBytes]

/-- Witness for C4 at concrete raw field values. -/
theorem telemetry_gps_altitude_scaling_witness :
    -2147483648 ≤ (1745330 : ℤ) ∧ (1745330 : ℤ) < 2147483648
    ∧ -2147483648 ≤ (-1745330 : ℤ) ∧ (-1745330 : ℤ) < 2147483648
    ∧ -32768 ≤ (328 : ℤ) ∧ (328 : ℤ) < 32768
    ∧ -32768 ≤ (-164 : ℤ) ∧ (-164 : ℤ) < 32768
    ∧ ((parse_droneid (pack_droneid
          ⟨91, 0, 1, 0, 0, [], 1745330, -1745330, 328, -164,
           0, 0, 0, 0, 0, 0, 0, 0, 0, 0, 0, []⟩)).longitude
        = ((1745330 : ℤ) : ℚ) / 174533
       ∧ (parse_droneid (pack_droneid
          ⟨91, 0, 1, 0, 0, [], 1745330, -1745330, 328, -164,
           0, 0, 0, 0, 0, 0, 0, 0, 0, 0, 0, []⟩)).latitude
        = ((-1745330 : ℤ) : ℚ) / 174533
       ∧ (parse_droneid (pack_droneid
          ⟨91, 0, 1, 0, 0, [], 1745330, -1745330, 328, -164,
           0, 0, 0, 0, 0, 0, 0, 0, 0, 0, 0, []⟩)).altitude
        = py_round_2 (((328 : ℤ) : ℚ) / (3281 / 1000))
       ∧ (parse_droneid (pack_droneid
          ⟨91, 0, 1, 0, 0, [], 1745330, -1745330, 328, -164,
           0, 0, 0, 0, 0, 0, 0, 0, 0, 0, 0, []⟩)).height
        = py_round_2 (((-164 : ℤ) : ℚ) / (3281 / 1000))
       ∧ (pack_droneid
          ⟨91, 0, 1, 0, 0, [], 1745330, -1745330, 328, -164,
           0, 0, 0, 0, 0, 0, 0, 0, 0, 0, 0, []⟩).length = 89) :=
  ⟨by norm_num, by norm_num, by norm_num, by norm_num, by norm_num,
   by norm_num, by norm_num, by norm_num,
   telemetry_gps_altitude_scaling
     ⟨91, 0, 1, 0, 0, [], 1745330, -1745330, 328, -164,
      0, 0, 0, 0, 0, 0, 0, 0, 0, 0, 0, []⟩
     (by norm_num) (by norm_num) (by norm_num) (by norm_num)
     (by norm_num) (by norm_num) (by norm_num) (by norm_num)⟩

/-! ## Rate de-matching lemmas -/

theorem nodup_filterMap_on {α β : Type} (f : α → Option β) :
    ∀ (l : List α), l.Nodup →
      (∀ a₁ ∈ l, ∀ a₂ ∈ l, ∀ b, f a₁ = some b → f a₂ = some b → a₁ = a₂) →
      (l.filterMap f).Nodup := by
  intro l
  induction l with
  | nil => intro _ _; simp
  | cons a l ih =>
    intro hnd hinj
    rw [List.nodup_cons] at hnd
    obtain ⟨hna, hnd⟩ := hnd
    have hinj₂ : ∀ a₁ ∈ l, ∀ a₂ ∈ l, ∀ b, f a₁ = some b → f a₂ = some b →
        a₁ = a₂ :=
      fun a₁ h₁ a₂ h₂ => hinj a₁ (by simp [h₁]) a₂ (by simp [h₂])
    rw [List.filterMap_cons]
    cases hfa : f a with
    | none => exact ih hnd hinj₂
    | some b =>
      rw [List.nodup_cons]
      refine ⟨?_, ih hnd hinj₂⟩
      intro hmem
      obtain ⟨a₂, ha₂, hfa₂⟩ := List.mem_filterMap.mp hmem
      have heq : a = a₂ := hinj a (by simp) a₂ (by simp [ha₂]) b hfa hfa₂
      exact hna (heq ▸ ha₂)

theorem rm_nrows_1412 : rm_nrows 1412 = 45 := by norm_num [rm_nrows]

theorem rm_perm_1412_nodup : (rm_perm 1412).Nodup := by
  unfold rm_perm
  apply nodup_filterMap_on _ _ (List.nodup_range _)
  intro k₁ hk₁ k₂ hk₂ t h₁ h₂
  rw [List.mem_range] at hk₁ hk₂
  rw [rm_nrows_1412] at hk₁ hk₂
  simp only [rm_nrows_1412] at h₁ h₂
  split at h₁
  · split at h₂
    · injection h₁ with h₁
      injection h₂ with h₂
      obtain ⟨c₁, q₁, hc₁, hq₁, he₁, hm₁, hd₁⟩ :
          ∃ c q, c < 32 ∧ q < 45 ∧ k₁ = 32 * q + c ∧ k₁ % 32 = c ∧ k₁ / 32 = q :=
        ⟨k₁ % 32, k₁ / 32, by omega, by omega, by omega, rfl, rfl⟩
      obtain ⟨c₂, q₂, hc₂, hq₂, he₂, hm₂, hd₂⟩ :
          ∃ c q, c < 32 ∧ q < 45 ∧ k₂ = 32 * q + c ∧ k₂ % 32 = c ∧ k₂ / 32 = q :=
        ⟨k₂ % 32, k₂ / 32, by omega, by omega, by omega, rfl, rfl⟩
      rw [hm₁, hd₁] at h₁
      rw [hm₂, hd₂] at h₂
      omega
    · simp at h₂
  · simp at h₁

theorem rm_perm_1412_mem (t : ℕ) : t ∈ rm_perm 1412 ↔ t < 1412 := by
  unfold rm_perm
  rw [List.mem_filterMap]
  constructor
  · rintro ⟨k, hk, hfk⟩
    simp only [rm_nrows_1412] at hfk
    split at hfk
    · injection hfk with hfk
      omega
    · simp at hfk
  · intro ht
    have hq : t / 45 < 32 := by omega
    have hm : ((t % 45) * 32 + t / 45) % 32 = t / 45 := by
      rw [Nat.mul_comm, Nat.mul_add_mod]
      exact Nat.mod_eq_of_lt hq
    have hd : ((t % 45) * 32 + t / 45) / 32 = t % 45 := by
      rw [Nat.add_comm, Nat.add_mul_div_right _ _ (by norm_num : 0 < 32),
          Nat.div_eq_of_lt hq]
      omega
    refine ⟨(t % 45) * 32 + t / 45, ?_, ?_⟩
    · rw [List.mem_range, rm_nrows_1412]
      omega
    · simp only [rm_nrows_1412]
      rw [hm, hd, if_pos (by omega)]
      congr 1
      omega

theorem rm_perm_1412_perm_range : (rm_perm 1412).Perm (List.range 1412) := by
  rw [List.perm_ext_iff_of_nodup rm_perm_1412_nodup (List.nodup_range _)]
  intro a
  rw [rm_perm_1412_mem, List.mem_range]

theorem map_getD_range {α : Type} (d : α) :
    ∀ (l : List α), (List.range l.length).map (fun t => l.getD t d) = l := by
  intro l
  induction l with
  | nil => rfl
  | cons a l ih =>
    rw [List.length_cons, List.range_succ_eq_map, List.map_cons, List.map_map]
    have htail : List.map ((fun t => (a :: l).getD t d) ∘ Nat.succ)
        (List.range l.length) = l := by
      conv_rhs => rw [← ih]
      apply List.map_congr_left
      intro t _
      simp
    rw [htail]
    simp only [List.getD_cons_zero]

/-- C5. For every bit stream of length 1412 the rate de-matcher returns
exactly 1412 bits, applies the one fixed index permutation rm_perm 1412
(which depends only on the length, hence is the same on every call and is
a permutation of the input positions 0..1411), returns a permutation of
the input bits, and leaves no dummy marker -1 in the output when the input
holds none. -/
theorem rate_dematch_fixed_permutation (bits : List ℤ)
    (hlen : bits.length = 1412) :
    (rm_turbo_rx bits).length = 1412
    ∧ rm_turbo_rx bits = (rm_perm 1412).map (fun t => bits.getD t (-1))
    ∧ (rm_perm 1412).Perm (List.range 1412)
    ∧ (rm_turbo_rx bits).Perm bits
    ∧ ((-1 : ℤ) ∉ bits → (-1 : ℤ) ∉ rm_turbo_rx bits) := by
  have heq : rm_turbo_rx bits = (rm_perm 1412).map (fun t => bits.getD t (-1)) := by
    unfold rm_turbo_rx
    rw [hlen]
  have hperm : (rm_turbo_rx bits).Perm bits := by
    rw [heq]
    have h₁ : ((rm_perm 1412).map (fun t => bits.getD t (-1))).Perm
        ((List.range 1412).map (fun t => bits.getD t (-1))) :=
      List.Perm.map _ rm_perm_1412_perm_range
    have h₂ : (List.range 1412).map (fun t => bits.getD t (-1)) = bits := by
      rw [← hlen]
      exact map_getD_range (-1) bits
    rwa [h₂] at h₁
  refine ⟨?_, heq, rm_perm_1412_perm_range, hperm, ?_⟩
  · rw [hperm.length_eq, hlen]
  · intro hnot hmem
    exact hnot (hperm.mem_iff.mp hmem)

/-- Witness for C5 at the all-zero 1412-bit stream. -/
theorem rate_dematch_fixed_permutation_witness :
    (List.replicate 1412 (0 : ℤ)).length = 1412
    ∧ ((rm_turbo_rx (List.replicate 1412 (0 : ℤ))).length = 1412
       ∧ rm_turbo_rx (List.replicate 1412 (0 : ℤ))
          = (rm_perm 1412).map
              (fun t => (List.replicate 1412 (0 : ℤ)).getD t (-1))
       ∧ (rm_perm 1412).Perm (List.range 1412)
       ∧ (rm_turbo_rx (List.replicate 1412 (0 : ℤ))).Perm
          (List.replicate 1412 (0 : ℤ))
       ∧ ((-1 : ℤ) ∉ List.replicate 1412 (0 : ℤ) →
          (-1 : ℤ) ∉ rm_turbo_rx (List.replicate 1412 (0 : ℤ)))) :=
  ⟨List.length_replicate 1412 0,
   rate_dematch_fixed_permutation (List.replicate 1412 (0 : ℤ))
    (List.length_replicate 1412 0)⟩
